import Mathlib

/-!
Verification of the a2 authorization & dispatch gateway.

The development shallowly embeds the relevant routes of the repository:

* the proxy dispatcher of src/unnamed/part_000 (`router.all` on the
  proxied route), including its local `startsWith` / `endsWith` string
  helpers and its host normalization,
* the application registry routes of src/routes/applications.js
  (registration and partial update),
* the RBAC evaluation contract (`isAllowed`) of the ACL engine.  The
  ACL library itself is not part of the sources, so its decision
  procedure is modelled from the specification of the hierarchical
  resource-matching policy.

Strings are handled through their underlying character lists so that
all definitions compute and all JavaScript slicing quirks are kept.
-/

namespace A2

/-! ### JavaScript string helpers (src/unnamed/part_000, lines 11-17)

`startsWith(source, str)` is `source.slice(0, str.length) === str` and
`endsWith(source, str)` is `source.slice(-str.length) === str`.
JavaScript `slice(-n)` takes the final `min(n, length)` characters,
except that `slice(-0)` is the whole string. -/

def jsStartsWith (source str : String) : Bool :=
  source.data.take str.data.length == str.data

def jsEndsWith (source str : String) : Bool :=
  (if str.data.length == 0 then source.data
   else source.data.drop (source.data.length - str.data.length)) == str.data

/-- `host.slice(0, host.length - 1)` (src/unnamed/part_000, line 86). -/
def jsDropLast (s : String) : String := ⟨s.data.take (s.data.length - 1)⟩

/-- JavaScript `toLowerCase()` on the ASCII strings this gateway
handles (HTTP methods and permission names), character by character. -/
def jsToLowerCase (s : String) : String := ⟨s.data.map Char.toLower⟩

/-- Host normalization performed by the dispatcher before forwarding
(src/unnamed/part_000, lines 81-87): prepend "http://" when the host
does not start with "http", then strip exactly one trailing "/". -/
def normalizeHost (host : String) : String :=
  let h1 := if jsStartsWith host "http" then host else "http://" ++ host
  if jsEndsWith h1 "/" then jsDropLast h1 else h1

/-! ### Data model -/

/-- An application record as stored by the registry.  The source field
`prefix` is called `pfx` here because the original name is reserved in
Lean. -/
structure Application where
  id : String
  pfx : String
  host : Option String
  name : Option String
deriving Repr, DecidableEq

/-- The parts of an incoming proxied request that the dispatcher reads:
`req.params.prefix`, `req.params[0]`, `req.method`, `req.user.username`
and `req._parsedUrl.search`. -/
structure ProxyRequest where
  pfx : String
  subPath : String
  method : String
  username : String
  search : Option String
deriving Repr, DecidableEq

inductive DispatchResult where
  | errorResp (status : Nat) (message : String)
  | forwarded (target : String)
deriving Repr, DecidableEq

/-- JavaScript truthiness of an optional string (`undefined` and `""`
are falsy). -/
def truthy : Option String → Bool
  | none => false
  | some s => s ≠ ""

/-- Display name used in the undefined-host error message
(src/unnamed/part_000, lines 132-137): the application name with the
prefix in parentheses, or just the prefix when the name is falsy. -/
def displayName (nameOpt : Option String) (p : String) : String :=
  match nameOpt with
  | none => p
  | some n => if n = "" then p else n ++ " (" ++ p ++ ")"

/-- `if (req._parsedUrl.search) host += req._parsedUrl.search`
(src/unnamed/part_000, lines 115-117). -/
def jsSearchSuffix : Option String → String
  | none => ""
  | some s => if s = "" then "" else s

/-- Target URL built for forwarding (src/unnamed/part_000,
lines 81-117): normalized host, then `req.params[0]`, then the original
query string when present. -/
def buildTarget (host subPath : String) (search : Option String) : String :=
  normalizeHost host ++ subPath ++ jsSearchSuffix search

/-- The proxy route handler of src/unnamed/part_000 (lines 65-148) as a
pure function.  The registry lookup and the ACL decision are passed in
as functions; the proxying itself is represented by the target URL the
code hands to `proxy.web`. -/
def dispatch (findByPfx : String → Option Application)
    (isAllowedQ : String → String → String → Bool)
    (req : ProxyRequest) : DispatchResult :=
  if req.pfx = "" then
    .errorResp 400 "You must provide a valid prefix!"
  else
    match findByPfx req.pfx with
    | none => .errorResp 400 ("No application found with the given prefix: " ++ req.pfx)
    | some application =>
      if truthy application.host then
        let host := application.host.getD ""
        let resource := req.pfx ++ req.subPath
        let action := jsToLowerCase req.method
        if isAllowedQ req.username resource action then
          .forwarded (buildTarget host req.subPath req.search)
        else
          .errorResp 403 "Insufficient permissions to access resource"
      else
        .errorResp 400 ("It seems that the application " ++
          displayName application.name req.pfx ++ " has an undefined host.")

/-- The error callback handed to `proxy.web` (src/unnamed/part_000,
lines 123-127): whatever transport error arrives, its status is set to
503 and the error is passed on. -/
structure ProxyError where
  code : String
  message : String
  status : Option Nat
deriving Repr, DecidableEq

def proxyErrorCallback (e : ProxyError) : ProxyError :=
  { e with status := some 503 }

/-! ### RBAC engine

Modelled from the spec: the ACL library that backs `req.app.acl` is not
part of the sources, only its callers are.  The definitions below follow
the specification of the authorization algorithm: a rule matches when
the action (case-insensitively) belongs to its permission set or the
set holds the wildcard, and the resource matches a pattern under the
hierarchical policy, which strips the resource from the right at
"/"-boundaries until it is empty. -/

/-- Predicate for stripping: characters other than the path separator. -/
def notSlash (c : Char) : Bool := c ≠ '/'

/-- Drop the last "/"-separated segment of a path (together with the
separator).  A path without "/" becomes empty. -/
def parentChars (l : List Char) : List Char :=
  ((l.reverse.dropWhile notSlash).tail).reverse

theorem parentChars_length_lt (l : List Char) (h : l ≠ []) :
    (parentChars l).length < l.length := by
  have hd : (l.reverse.dropWhile notSlash).length ≤ l.reverse.length :=
    (List.dropWhile_sublist _).length_le
  have hl : 0 < l.length := List.length_pos.mpr h
  simp only [parentChars, List.length_reverse, List.length_tail] at *
  omega

/-- Modelled from the spec: hierarchical resource matching.  Exact match
succeeds; otherwise the resource is stripped from the right at
"/"-boundaries and retried, stopping when the path is empty. -/
def hierMatch (pat : List Char) (res : List Char) : Bool :=
  if h : res = [] then false
  else if res = pat then true
  else hierMatch pat (parentChars res)
termination_by res.length
decreasing_by exact parentChars_length_lt res h

def hierMatchS (pat res : String) : Bool := hierMatch pat.data res.data

/-- One allow-rule of a role: the `{resources, permissions}` objects
that the registration route rewrites and the ACL stores. -/
structure AllowRule where
  resources : List String
  permissions : List String
deriving Repr, DecidableEq

/-- A role: the `{roles, allows}` objects posted at registration. -/
structure Role where
  name : String
  allows : List AllowRule
deriving Repr, DecidableEq

/-- Modelled from the spec: role store plus user-to-role assignment of
the ACL engine. -/
structure AclState where
  roles : List Role
  userRoles : List (String × List String)
deriving Repr, DecidableEq

def rolesOf (st : AclState) (user : String) : List String :=
  match st.userRoles.lookup user with
  | some rs => rs
  | none => []

/-- Modelled from the spec: the action matches when it is a member of
the permission set case-insensitively, or the set holds the wildcard. -/
def permMatches (rule : AllowRule) (action : String) : Bool :=
  rule.permissions.any (fun p => jsToLowerCase p == jsToLowerCase action) ||
    rule.permissions.contains "*"

def ruleMatches (rule : AllowRule) (resource action : String) : Bool :=
  permMatches rule action && rule.resources.any (fun pat => hierMatchS pat resource)

/-- Modelled from the spec: `isAllowed(user, resource, action)` — allow
iff some role held by the user owns a rule whose permissions admit the
action and whose resource patterns match the resource hierarchically. -/
def isAllowed (st : AclState) (user resource action : String) : Bool :=
  (rolesOf st user).any fun rn =>
    st.roles.any fun role =>
      role.name == rn && role.allows.any fun rule => ruleMatches rule resource action

/-! ### Registration (src/routes/applications.js, lines 108-162) -/

/-- The roles step of the registration route (lines 132-147): every
resource string of every allow-rule is replaced by the plain
concatenation of the registered prefix and the resource. -/
def rewriteAllow (p : String) (a : AllowRule) : AllowRule :=
  { a with resources := a.resources.map (fun r => p ++ r) }

def rewriteRole (p : String) (r : Role) : Role :=
  { r with allows := r.allows.map (rewriteAllow p) }

/-- The registration route: missing prefix or host fail with 400;
otherwise the application is stored and echoed back.  The store keeps
prefix and host verbatim — the route passes `req.body.host` straight to
`create` and the test suite (src/unnamed/part_001, line 288) asserts
that the responded host equals the posted, un-normalized host. -/
def registerApp (apps : List Application) (newId : String)
    (pfxIn hostIn : Option String) : Except (Nat × String) (List Application × Application) :=
  if ¬ truthy pfxIn then .error (400, "Prefix required!")
  else if ¬ truthy hostIn then .error (400, "Host required!")
  else
    let app : Application :=
      { id := newId, pfx := pfxIn.getD "", host := hostIn, name := none }
    .ok (apps ++ [app], app)

/-! ### Partial update (src/routes/applications.js, lines 229-278) -/

structure UpdateBody where
  name : Option String
  pfx : Option String
  host : Option String
deriving Repr, DecidableEq

/-- The `$set` document built by the update route: each of name, prefix
and host is included only when truthy in the request body. -/
def applySet (app : Application) (b : UpdateBody) : Application :=
  { app with
    name := if truthy b.name then b.name else app.name
    pfx := if truthy b.pfx then b.pfx.getD "" else app.pfx
    host := if truthy b.host then b.host else app.host }

/-- Modelled from the spec: `findOneAndUpdate` with `runValidators` and
the unique indexes of the application schema, which are not in the
sources.  Validation of the host shape runs when the update sets a
host; a duplicate prefix or host of another application is rejected.
The host-shape validator itself is abstract (`hostValid`). -/
def findOneAndUpdate (hostValid : String → Bool) (apps : List Application)
    (appId : String) (b : UpdateBody) : Except String (Option Application) :=
  match apps.find? (fun a => a.id == appId) with
  | none => .ok none
  | some app =>
    let app2 := applySet app b
    if truthy b.host && ¬ hostValid (b.host.getD "") then
      .error "Validation failed: host is not a valid URL"
    else if apps.any (fun other =>
        other.id ≠ appId &&
          (other.pfx == app2.pfx || (app2.host.isSome && other.host == app2.host))) then
      .error "Duplicate unique field"
    else
      .ok (some app2)

inductive UpdateResult where
  | errorResp (status : Nat) (message : String)
  | updated (app : Application)
deriving Repr, DecidableEq

/-- The update route handler: a missing id fails with 400; a store
error is surfaced with status 403; an absent application with 400; a
successful update responds with the updated application. -/
def putApplication (hostValid : String → Bool) (apps : List Application)
    (appId : String) (b : UpdateBody) : UpdateResult :=
  if appId = "" then .errorResp 400 "You must provide a valid application id"
  else
    match findOneAndUpdate hostValid apps appId b with
    | .error m => .errorResp 403 m
    | .ok none => .errorResp 400 "No application with the given application id exists."
    | .ok (some app) => .updated app

/-! ### Helper lemmas -/

theorem truthy_some_of_ne {s : String} (h : s ≠ "") : truthy (some s) = true := by
  simp [truthy, h]

/-- Unfolds the dispatcher on a request whose prefix resolves to an
application with a truthy host: the outcome is decided by the ACL
oracle evaluated at the user, at the concatenated resource and at the
lower-cased method. -/
theorem dispatch_resolved (findByPfx : String → Option Application)
    (f : String → String → String → Bool) (req : ProxyRequest)
    (app : Application) (host : String)
    (hp : req.pfx ≠ "") (hfind : findByPfx req.pfx = some app)
    (hhost : app.host = some host) (hne : host ≠ "") :
    dispatch findByPfx f req =
      if f req.username (req.pfx ++ req.subPath) (jsToLowerCase req.method) then
        .forwarded (buildTarget host req.subPath req.search)
      else
        .errorResp 403 "Insufficient permissions to access resource" := by
  unfold dispatch
  rw [if_neg hp, hfind]
  simp only [hhost, truthy_some_of_ne hne, if_true, Option.getD_some]

/-- Fixture: the gleaner application of the test suite, with the host
already in normalized shape. -/
def gleanerNormApp : Application :=
  { id := "id1", pfx := "gleaner", host := some "http://localhost:3300", name := none }

def gleanerNormFind : String → Option Application := fun p =>
  if p = "gleaner" then some gleanerNormApp else none

/-! ### Claims about the dispatcher -/

/-- Claim C1: for every request dispatched with a registered prefix and
an allowed user, the forwarding target is exactly the normalized host,
then the sub-path, then the original query string verbatim; in
particular requesting the sub-path "/a/b" with query "?x=1" against an
already-normalized host `h` targets exactly `h ++ "/a/b?x=1"`. -/
theorem dispatch_preserves_subpath_and_query
    (findByPfx : String → Option Application)
    (f : String → String → String → Bool) (req : ProxyRequest)
    (app : Application) (host : String)
    (hp : req.pfx ≠ "") (hfind : findByPfx req.pfx = some app)
    (hhost : app.host = some host) (hne : host ≠ "")
    (hallow : f req.username (req.pfx ++ req.subPath) (jsToLowerCase req.method) = true) :
    dispatch findByPfx f req =
      .forwarded (normalizeHost host ++ req.subPath ++ jsSearchSuffix req.search)
    ∧ (jsStartsWith host "http" = true → jsEndsWith host "/" = false →
        req.subPath = "/a/b" → req.search = some "?x=1" →
        dispatch findByPfx f req = .forwarded (host ++ "/a/b?x=1")) := by
  have hd := dispatch_resolved findByPfx f req app host hp hfind hhost hne
  rw [hallow, if_pos rfl] at hd
  refine ⟨hd, fun h1 h2 h3 h4 => ?_⟩
  rw [hd, h3, h4]
  have hn : normalizeHost host = host := by
    simp only [normalizeHost, h1, if_true, h2, Bool.false_eq_true, if_false]
  simp only [buildTarget, jsSearchSuffix, hn, String.append_assoc]
  rfl

theorem dispatch_preserves_subpath_and_query_witness :
    ("gleaner" : String) ≠ ""
    ∧ gleanerNormFind "gleaner" = some gleanerNormApp
    ∧ gleanerNormApp.host = some "http://localhost:3300"
    ∧ ("http://localhost:3300" : String) ≠ ""
    ∧ dispatch gleanerNormFind (fun _ _ _ => true)
        ⟨"gleaner", "/a/b", "GET", "someUser", some "?x=1"⟩ =
        .forwarded ("http://localhost:3300" ++ "/a/b?x=1") := by
  refine ⟨by decide, by decide, by decide, by decide, ?_⟩
  exact (dispatch_preserves_subpath_and_query gleanerNormFind (fun _ _ _ => true)
    ⟨"gleaner", "/a/b", "GET", "someUser", some "?x=1"⟩ gleanerNormApp
    "http://localhost:3300" (by decide) (by decide) (by decide) (by decide)
    (by decide)).2 (by decide) (by decide) rfl rfl

/-- Claim C2: the authorization query of a proxied request consults the
ACL oracle at exactly the user name, the resource built by plain
concatenation of the prefix with the remainder path, and the action
equal to the lower-cased HTTP method — two oracles agreeing at that
single point yield the same dispatch result, which is the oracle's
verdict at that point. -/
theorem dispatch_queries_exact_resource_and_action
    (findByPfx : String → Option Application)
    (f g : String → String → String → Bool) (req : ProxyRequest)
    (app : Application) (host : String)
    (hp : req.pfx ≠ "") (hfind : findByPfx req.pfx = some app)
    (hhost : app.host = some host) (hne : host ≠ "")
    (hagree : f req.username (req.pfx ++ req.subPath) (jsToLowerCase req.method)
            = g req.username (req.pfx ++ req.subPath) (jsToLowerCase req.method)) :
    dispatch findByPfx f req = dispatch findByPfx g req
    ∧ dispatch findByPfx f req =
        (if f req.username (req.pfx ++ req.subPath) (jsToLowerCase req.method) then
          .forwarded (buildTarget host req.subPath req.search)
        else
          .errorResp 403 "Insufficient permissions to access resource") := by
  have hdf := dispatch_resolved findByPfx f req app host hp hfind hhost hne
  have hdg := dispatch_resolved findByPfx g req app host hp hfind hhost hne
  exact ⟨by rw [hdf, hdg, hagree], hdf⟩

theorem dispatch_queries_exact_resource_and_action_witness :
    ("gleaner" : String) ≠ ""
    ∧ gleanerNormFind "gleaner" = some gleanerNormApp
    ∧ gleanerNormApp.host = some "http://localhost:3300"
    ∧ ("http://localhost:3300" : String) ≠ ""
    ∧ (fun (_ _ _ : String) => true) "someUser" ("gleaner" ++ "/route1") (jsToLowerCase "GET")
      = (fun u r a => u == "someUser" && r == "gleaner/route1" && a == "get")
          "someUser" ("gleaner" ++ "/route1") (jsToLowerCase "GET")
    ∧ dispatch gleanerNormFind (fun _ _ _ => true)
        ⟨"gleaner", "/route1", "GET", "someUser", none⟩ =
      dispatch gleanerNormFind
        (fun u r a => u == "someUser" && r == "gleaner/route1" && a == "get")
        ⟨"gleaner", "/route1", "GET", "someUser", none⟩ := by
  refine ⟨by decide, by decide, by decide, by decide, by decide, ?_⟩
  exact (dispatch_queries_exact_resource_and_action gleanerNormFind
    (fun _ _ _ => true) (fun u r a => u == "someUser" && r == "gleaner/route1" && a == "get")
    ⟨"gleaner", "/route1", "GET", "someUser", none⟩ gleanerNormApp "http://localhost:3300"
    (by decide) (by decide) (by decide) (by decide) (by decide)).1

/-- Claim C4: when the ACL oracle denies a resolved request, the
dispatcher answers 403 with the insufficient-permissions message and
does not forward anything. -/
theorem dispatch_denied_is_403_not_forwarded
    (findByPfx : String → Option Application)
    (f : String → String → String → Bool) (req : ProxyRequest)
    (app : Application) (host : String)
    (hp : req.pfx ≠ "") (hfind : findByPfx req.pfx = some app)
    (hhost : app.host = some host) (hne : host ≠ "")
    (hdeny : f req.username (req.pfx ++ req.subPath) (jsToLowerCase req.method) = false) :
    dispatch findByPfx f req =
      .errorResp 403 "Insufficient permissions to access resource"
    ∧ ∀ t, dispatch findByPfx f req ≠ .forwarded t := by
  have hd := dispatch_resolved findByPfx f req app host hp hfind hhost hne
  rw [hdeny] at hd
  simp only [Bool.false_eq_true, if_false] at hd
  exact ⟨hd, fun t h => by rw [hd] at h; exact DispatchResult.noConfusion h⟩

theorem dispatch_denied_is_403_not_forwarded_witness :
    ("gleaner" : String) ≠ ""
    ∧ gleanerNormFind "gleaner" = some gleanerNormApp
    ∧ gleanerNormApp.host = some "http://localhost:3300"
    ∧ ("http://localhost:3300" : String) ≠ ""
    ∧ dispatch gleanerNormFind (fun _ _ _ => false)
        ⟨"gleaner", "/route2", "GET", "someUser", none⟩ =
        .errorResp 403 "Insufficient permissions to access resource" := by
  refine ⟨by decide, by decide, by decide, by decide, ?_⟩
  exact (dispatch_denied_is_403_not_forwarded gleanerNormFind (fun _ _ _ => false)
    ⟨"gleaner", "/route2", "GET", "someUser", none⟩ gleanerNormApp "http://localhost:3300"
    (by decide) (by decide) (by decide) (by decide) (by decide)).1

/-- Claim C8: when the resolved application record has no truthy host,
the dispatcher answers 400 with a message built from the display name,
which falls back to the prefix when the application has no name. -/
theorem dispatch_undefined_host_is_400
    (findByPfx : String → Option Application)
    (f : String → String → String → Bool) (req : ProxyRequest)
    (app : Application)
    (hp : req.pfx ≠ "") (hfind : findByPfx req.pfx = some app)
    (hhost : truthy app.host = false) :
    dispatch findByPfx f req =
      .errorResp 400 ("It seems that the application " ++
        displayName app.name req.pfx ++ " has an undefined host.")
    ∧ (app.name = none → displayName app.name req.pfx = req.pfx)
    ∧ ∀ n, app.name = some n → n ≠ "" →
        displayName app.name req.pfx = n ++ " (" ++ req.pfx ++ ")" := by
  refine ⟨?_, ?_, ?_⟩
  · unfold dispatch
    rw [if_neg hp, hfind]
    simp only [hhost, Bool.false_eq_true, if_false]
  · intro h
    simp [displayName, h]
  · intro n h hn
    simp [displayName, h, hn]

theorem dispatch_undefined_host_is_400_witness :
    ("noapp" : String) ≠ ""
    ∧ (fun p => if p = "noapp" then
          some (⟨"id2", "noapp", none, none⟩ : Application) else none) "noapp"
        = some ⟨"id2", "noapp", none, none⟩
    ∧ truthy (⟨"id2", "noapp", none, none⟩ : Application).host = false
    ∧ dispatch
        (fun p => if p = "noapp" then some ⟨"id2", "noapp", none, none⟩ else none)
        (fun _ _ _ => true) ⟨"noapp", "/x", "GET", "someUser", none⟩ =
        .errorResp 400 ("It seems that the application " ++
          displayName none "noapp" ++ " has an undefined host.") := by
  refine ⟨by decide, by decide, by decide, ?_⟩
  exact (dispatch_undefined_host_is_400
    (fun p => if p = "noapp" then some ⟨"id2", "noapp", none, none⟩ else none)
    (fun _ _ _ => true) ⟨"noapp", "/x", "GET", "someUser", none⟩
    ⟨"id2", "noapp", none, none⟩ (by decide) (by decide) (by decide)).1

/-- Claim C5: every transport error arriving in the proxying error
callback leaves it with status 503, whatever its kind, code or prior
status; the lower-level message is carried along but the surfaced
status is always 503. -/
theorem proxy_error_surfaces_503 (e : ProxyError) :
    (proxyErrorCallback e).status = some 503
    ∧ (proxyErrorCallback e).message = e.message
    ∧ (proxyErrorCallback e).code = e.code := by
  exact ⟨rfl, rfl, rfl⟩

/-- Claim C9: the normalization step only tests whether the stored host
starts with the four characters "http": any such host is left without a
prepended scheme, so a value like "httpserver.com" flows through
unchanged and the result is not guaranteed to start with a real
scheme. -/
theorem normalizeHost_only_checks_http_marker :
    (∀ h, jsStartsWith h "http" = true →
        normalizeHost h = if jsEndsWith h "/" then jsDropLast h else h)
    ∧ normalizeHost "httpserver.com" = "httpserver.com"
    ∧ jsStartsWith "httpserver.com" "http" = true
    ∧ jsStartsWith "httpserver.com" "http://" = false := by
  refine ⟨?_, by decide, by decide, by decide⟩
  intro h hh
  simp only [normalizeHost, hh, if_true]

/-! ### Hierarchical matching lemmas -/

theorem hierMatch_self (pat : List Char) (h : pat ≠ []) : hierMatch pat pat = true := by
  unfold hierMatch
  simp [h]

theorem hierMatch_ancestor (pat : List Char) (hp : pat ≠ []) :
    ∀ n rest, rest.length ≤ n → hierMatch pat (pat ++ '/' :: rest) = true := by
  intro n
  induction n with
  | zero =>
    intro rest hr
    have hrest : rest = [] := List.length_eq_zero.mp (Nat.le_zero.mp hr)
    subst hrest
    rw [hierMatch]
    have hne : pat ++ ['/'] ≠ [] := by simp
    have hgt : pat ++ ['/'] ≠ pat := by
      intro h
      have := congrArg List.length h
      simp at this
    rw [dif_neg hne, if_neg hgt]
    have hparent : parentChars (pat ++ ['/']) = pat := by
      unfold parentChars
      rw [List.reverse_append]
      simp only [List.reverse_cons, List.reverse_nil, List.nil_append, List.singleton_append]
      rw [List.dropWhile_cons_of_neg (by simp [notSlash])]
      simp
    rw [hparent]
    exact hierMatch_self pat hp
  | succ n ih =>
    intro rest hr
    rw [hierMatch]
    have hne : pat ++ '/' :: rest ≠ [] := by simp
    have hgt : pat ++ '/' :: rest ≠ pat := by
      intro h
      have := congrArg List.length h
      simp at this
    rw [dif_neg hne, if_neg hgt]
    have hrev : (pat ++ '/' :: rest).reverse = rest.reverse ++ '/' :: pat.reverse := by
      simp
    by_cases hd : rest.reverse.dropWhile notSlash = []
    · have hparent : parentChars (pat ++ '/' :: rest) = pat := by
        unfold parentChars
        rw [hrev, List.dropWhile_append, hd]
        rw [if_pos (by simp)]
        rw [List.dropWhile_cons_of_neg (by simp [notSlash])]
        simp
      rw [hparent]
      exact hierMatch_self pat hp
    · have hhead : (rest.reverse.dropWhile notSlash).head hd = '/' := by
        have h0 := List.head_dropWhile_not notSlash rest.reverse (w := hd)
        simpa [notSlash] using h0
      have hdc : rest.reverse.dropWhile notSlash =
          '/' :: (rest.reverse.dropWhile notSlash).tail := by
        conv_lhs => rw [← List.head_cons_tail _ hd]
        rw [hhead]
      have hparent : parentChars (pat ++ '/' :: rest) =
          pat ++ '/' :: (rest.reverse.dropWhile notSlash).tail.reverse := by
        unfold parentChars
        rw [hrev, List.dropWhile_append]
        rw [if_neg (by simp [hd])]
        conv_lhs => rw [hdc]
        simp
      rw [hparent]
      apply ih
      have hlen : (rest.reverse.dropWhile notSlash).length ≤ rest.length := by
        have h1 := (List.dropWhile_sublist (l := rest.reverse) notSlash).length_le
        simpa using h1
      have hlen2 : (rest.reverse.dropWhile notSlash).tail.length + 1 =
          (rest.reverse.dropWhile notSlash).length := by
        conv_rhs => rw [hdc]
        simp
      simp only [List.length_reverse]
      omega

theorem string_ne_empty_data {s : String} (h : s ≠ "") : s.data ≠ [] :=
  fun hd => h (by cases s; simp_all)

theorem hierMatchS_self (r : String) (h : r ≠ "") : hierMatchS r r = true :=
  hierMatch_self r.data (string_ne_empty_data h)

theorem hierMatchS_ancestor (A rest : String) (hA : A ≠ "") :
    hierMatchS A (A ++ "/" ++ rest) = true := by
  unfold hierMatchS
  have hdata : (A ++ "/" ++ rest).data = A.data ++ '/' :: rest.data := by
    simp
  rw [hdata]
  exact hierMatch_ancestor A.data (string_ne_empty_data hA) rest.data.length rest.data
    (Nat.le_refl _)

theorem isAllowed_of_match (st : AclState) (user resource action : String)
    (role : Role) (rule : AllowRule)
    (hrole : role ∈ st.roles) (hassigned : role.name ∈ rolesOf st user)
    (hrule : rule ∈ role.allows) (hmatch : ruleMatches rule resource action = true) :
    isAllowed st user resource action = true := by
  unfold isAllowed
  rw [List.any_eq_true]
  refine ⟨role.name, hassigned, ?_⟩
  rw [List.any_eq_true]
  refine ⟨role, hrole, ?_⟩
  rw [Bool.and_eq_true]
  refine ⟨by simp, ?_⟩
  rw [List.any_eq_true]
  exact ⟨rule, hrule, hmatch⟩

theorem normalizeHost_only_checks_http_marker_witness :
    jsStartsWith "httpserver.com" "http" = true
    ∧ normalizeHost "httpserver.com" =
        (if jsEndsWith "httpserver.com" "/" then jsDropLast "httpserver.com"
         else "httpserver.com") :=
  ⟨by decide, normalizeHost_only_checks_http_marker.1 "httpserver.com" (by decide)⟩

/-- Fixture: the allow-rule of the gleanerUser role of the test suite. -/
def gleanerAllow : AllowRule :=
  { resources := ["/route1"], permissions := ["post", "get", "delete", "put"] }

/-- Fixture: the gleanerUser role of the test suite, as posted at
registration time. -/
def gleanerRole : Role :=
  { name := "gleanerUser", allows := [gleanerAllow] }

/-- Fixture: ACL state after registering the gleaner application with
its roles and assigning gleanerUser to the test user. -/
def gleanerAcl : AclState :=
  { roles := [rewriteRole "gleaner" gleanerRole],
    userRoles := [("user_asd", ["gleanerUser"])] }

def gleanerRawApp : Application :=
  { id := "id3", pfx := "gleaner", host := some "localhost:3300", name := none }

def gleanerRawFind : String → Option Application := fun p =>
  if p = "gleaner" then some gleanerRawApp else none

/-- Claim C6: `isAllowed` is monotonic under ancestor grants — when a
held role owns a rule whose permission set admits the action and whose
resource patterns contain an ancestor path `A`, every resource of the
form `A ++ "/" ++ rest` is allowed. -/
theorem isAllowed_monotonic_under_ancestor_grants
    (st : AclState) (user action A rest : String) (role : Role) (rule : AllowRule)
    (hrole : role ∈ st.roles) (hassigned : role.name ∈ rolesOf st user)
    (hrule : rule ∈ role.allows) (hpat : A ∈ rule.resources)
    (hperm : permMatches rule action = true) (hA : A ≠ "") :
    isAllowed st user (A ++ "/" ++ rest) action = true := by
  apply isAllowed_of_match st user _ action role rule hrole hassigned hrule
  unfold ruleMatches
  rw [Bool.and_eq_true]
  refine ⟨hperm, ?_⟩
  rw [List.any_eq_true]
  exact ⟨A, hpat, hierMatchS_ancestor A rest hA⟩

theorem isAllowed_monotonic_under_ancestor_grants_witness :
    rewriteRole "gleaner" gleanerRole ∈ gleanerAcl.roles
    ∧ (rewriteRole "gleaner" gleanerRole).name ∈ rolesOf gleanerAcl "user_asd"
    ∧ ("gleaner/route1" : String) ∈ (rewriteAllow "gleaner" gleanerAllow).resources
    ∧ ("gleaner/route1" : String) ≠ ""
    ∧ isAllowed gleanerAcl "user_asd" ("gleaner/route1" ++ "/" ++ "deep/path") "get" = true := by
  refine ⟨by decide, by decide, by decide, by decide, ?_⟩
  exact isAllowed_monotonic_under_ancestor_grants gleanerAcl "user_asd" "get"
    "gleaner/route1" "deep/path" (rewriteRole "gleaner" gleanerRole)
    (rewriteAllow "gleaner" gleanerAllow)
    (by decide) (by decide) (by decide) (by decide) (by decide) (by decide)

/-- Claim C10: the registration step rewrites every rule resource to
the plain concatenation of the prefix and the resource, which is the
very key the dispatcher builds; hence a registration-time rule for a
sub-path allows — and forwards — a later proxied request for that same
sub-path. -/
theorem registered_rule_allows_proxied_subpath
    (findByPfx : String → Option Application) (st : AclState)
    (p s : String) (role : Role) (rule : AllowRule)
    (req : ProxyRequest) (app : Application) (host : String)
    (hreq : req.pfx = p) (hsub : req.subPath = s)
    (hrole : rewriteRole p role ∈ st.roles)
    (hassigned : role.name ∈ rolesOf st req.username)
    (hrule : rule ∈ role.allows) (hres : s ∈ rule.resources)
    (hperm : permMatches rule (jsToLowerCase req.method) = true)
    (hp : p ≠ "") (hfind : findByPfx p = some app)
    (hhost : app.host = some host) (hne : host ≠ "") :
    isAllowed st req.username (p ++ s) (jsToLowerCase req.method) = true
    ∧ dispatch findByPfx (isAllowed st) req = .forwarded (buildTarget host s req.search) := by
  have hresources : (p ++ s) ∈ (rewriteAllow p rule).resources := by
    unfold rewriteAllow
    exact List.mem_map_of_mem (fun r => p ++ r) hres
  have hne2 : (p ++ s) ≠ "" := by
    intro h0
    apply string_ne_empty_data hp
    have := congrArg String.data h0
    simp at this
    exact this.1
  have hall : isAllowed st req.username (p ++ s) (jsToLowerCase req.method) = true := by
    apply isAllowed_of_match st req.username _ _ (rewriteRole p role) (rewriteAllow p rule)
      hrole hassigned
    · unfold rewriteRole
      exact List.mem_map_of_mem (rewriteAllow p) hrule
    · unfold ruleMatches
      rw [Bool.and_eq_true]
      refine ⟨?_, ?_⟩
      · simpa [permMatches, rewriteAllow] using hperm
      · rw [List.any_eq_true]
        exact ⟨p ++ s, hresources, hierMatchS_self (p ++ s) hne2⟩
  refine ⟨hall, ?_⟩
  have hd := dispatch_resolved findByPfx (isAllowed st) req app host
    (by rw [hreq]; exact hp) (by rw [hreq]; exact hfind) hhost hne
  rw [hd, hreq, hsub, hall, if_pos rfl]

theorem registered_rule_allows_proxied_subpath_witness :
    (⟨"gleaner", "/route1", "GET", "user_asd", none⟩ : ProxyRequest).pfx = "gleaner"
    ∧ rewriteRole "gleaner" gleanerRole ∈ gleanerAcl.roles
    ∧ gleanerRole.name ∈ rolesOf gleanerAcl "user_asd"
    ∧ ("/route1" : String) ∈ gleanerAllow.resources
    ∧ permMatches gleanerAllow (jsToLowerCase "GET") = true
    ∧ gleanerRawFind "gleaner" = some gleanerRawApp
    ∧ dispatch gleanerRawFind (isAllowed gleanerAcl)
        ⟨"gleaner", "/route1", "GET", "user_asd", none⟩ =
        .forwarded (buildTarget "localhost:3300" "/route1" none) := by
  refine ⟨by decide, by decide, by decide, by decide, by decide, by decide, ?_⟩
  exact (registered_rule_allows_proxied_subpath gleanerRawFind gleanerAcl
    "gleaner" "/route1" gleanerRole gleanerAllow
    ⟨"gleaner", "/route1", "GET", "user_asd", none⟩ gleanerRawApp "localhost:3300"
    rfl rfl (by decide) (by decide) (by decide) (by decide) (by decide)
    (by decide) (by decide) (by decide) (by decide)).2

/-! ### Normalization facts for registration -/

theorem jsStartsWith_http_append (s : String) :
    jsStartsWith ("http://" ++ s) "http" = true := by
  unfold jsStartsWith
  rw [show ("http://" ++ s).data = "http://".data ++ s.data from by simp]
  rw [List.take_append_of_le_length (by decide)]
  decide

theorem jsStartsWith_jsDropLast (h1 : String)
    (hs : jsStartsWith h1 "http" = true) (he : jsEndsWith h1 "/" = true) :
    jsStartsWith (jsDropLast h1) "http" = true := by
  unfold jsStartsWith at hs ⊢
  rw [beq_iff_eq] at hs ⊢
  have he' : (h1.data.drop (h1.data.length - 1) == ['/']) = true := he
  rw [beq_iff_eq] at he'
  show (h1.data.take (h1.data.length - 1)).take "http".data.length = "http".data
  have hlen4 : "http".data.length = 4 := by decide
  rw [hlen4] at hs ⊢
  have hmin : min 4 h1.data.length = 4 := by
    have h0 := congrArg List.length hs
    rw [List.length_take] at h0
    simpa using h0
  have hge5 : 5 ≤ h1.data.length := by
    by_contra hlt
    have hlen : h1.data.length = 4 := by omega
    have hdata : h1.data = "http".data := by
      rw [← hs, List.take_of_length_le (by omega)]
    rw [hdata] at he'
    simp at he'
  rw [List.take_take, Nat.min_eq_left (by omega)]
  exact hs

/-- Whatever the stored host is, the dispatcher-normalized host starts
with "http". -/
theorem normalizeHost_startsWith_http (h : String) :
    jsStartsWith (normalizeHost h) "http" = true := by
  unfold normalizeHost
  by_cases hc : jsStartsWith h "http" = true
  · simp only [hc, if_true]
    by_cases he : jsEndsWith h "/" = true
    · rw [if_pos he]
      exact jsStartsWith_jsDropLast h hc he
    · rw [if_neg he]
      exact hc
  · simp only [hc, Bool.false_eq_true, if_false]
    by_cases he : jsEndsWith ("http://" ++ h) "/" = true
    · rw [if_pos he]
      exact jsStartsWith_jsDropLast ("http://" ++ h) (jsStartsWith_http_append h) he
    · rw [if_neg he]
      exact jsStartsWith_http_append h

/-- Claim C3, counterexample: registering the test suite's application
stores and returns the host "localhost:3300" exactly as posted — it is
not normalized before storing and carries no scheme. -/
theorem register_does_not_normalize_host_cex :
    registerApp [] "id1" (some "gleaner") (some "localhost:3300") =
      .ok ([⟨"id1", "gleaner", some "localhost:3300", none⟩],
        ⟨"id1", "gleaner", some "localhost:3300", none⟩)
    ∧ normalizeHost "localhost:3300" ≠ "localhost:3300"
    ∧ jsStartsWith "localhost:3300" "http" = false := by
  refine ⟨rfl, by decide, by decide⟩

/-- Claim C3 (amended): registration stores and echoes the host
verbatim; it is the dispatcher that normalizes the host before
forwarding, and that normalized host always starts with "http". -/
theorem register_verbatim_dispatcher_normalizes
    (apps : List Application) (newId p h : String) (hp : p ≠ "") (hh : h ≠ "") :
    registerApp apps newId (some p) (some h) =
      .ok (apps ++ [⟨newId, p, some h, none⟩], ⟨newId, p, some h, none⟩)
    ∧ jsStartsWith (normalizeHost h) "http" = true := by
  constructor
  · simp [registerApp, truthy, hp, hh]
  · exact normalizeHost_startsWith_http h

theorem register_verbatim_dispatcher_normalizes_witness :
    ("gleaner" : String) ≠ "" ∧ ("localhost:3300" : String) ≠ ""
    ∧ (registerApp [] "id9" (some "gleaner") (some "localhost:3300") =
        .ok ([⟨"id9", "gleaner", some "localhost:3300", none⟩],
          ⟨"id9", "gleaner", some "localhost:3300", none⟩)
      ∧ jsStartsWith (normalizeHost "localhost:3300") "http" = true) :=
  ⟨by decide, by decide,
    register_verbatim_dispatcher_normalizes [] "id9" "gleaner" "localhost:3300"
      (by decide) (by decide)⟩

/-- Claim C7: the update route answers 400 when no application has the
given id, 403 when the store rejects the update (host validation or a
duplicate unique field), and the updated application on success. -/
theorem putApplication_statuses (hostValid : String → Bool)
    (apps : List Application) (appId : String) (b : UpdateBody)
    (hid : appId ≠ "") :
    (apps.find? (fun a => a.id == appId) = none →
      putApplication hostValid apps appId b =
        .errorResp 400 "No application with the given application id exists.")
    ∧ (∀ m, findOneAndUpdate hostValid apps appId b = .error m →
        putApplication hostValid apps appId b = .errorResp 403 m)
    ∧ (∀ app, findOneAndUpdate hostValid apps appId b = .ok (some app) →
        putApplication hostValid apps appId b = .updated app)
    ∧ (∀ app, apps.find? (fun a => a.id == appId) = some app →
        truthy b.host = true → hostValid (b.host.getD "") = false →
        putApplication hostValid apps appId b =
          .errorResp 403 "Validation failed: host is not a valid URL") := by
  refine ⟨?_, ?_, ?_, ?_⟩
  · intro hfind
    unfold putApplication
    rw [if_neg hid]
    unfold findOneAndUpdate
    rw [hfind]
  · intro m hm
    unfold putApplication
    rw [if_neg hid, hm]
  · intro app happ
    unfold putApplication
    rw [if_neg hid, happ]
  · intro app hfind htr hval
    unfold putApplication
    rw [if_neg hid]
    have herr : findOneAndUpdate hostValid apps appId b =
        .error "Validation failed: host is not a valid URL" := by
      simp only [findOneAndUpdate, hfind]
      rw [if_pos (by simp [htr, hval])]
    rw [herr]

/-- Fixture: a two-application registry for exercising the update
route. -/
def updApps : List Application :=
  [⟨"a1", "p1", some "http://h1.com", none⟩, ⟨"a2", "p2", some "http://h2.com", none⟩]

/-- Fixture: the abstract host validator used in the update witnesses. -/
def updHostValid : String → Bool := fun h => jsStartsWith h "http"

theorem putApplication_statuses_witness :
    ("zz" : String) ≠ ""
    ∧ updApps.find? (fun a => a.id == "zz") = none
    ∧ putApplication updHostValid updApps "zz" ⟨some "N", none, none⟩ =
        .errorResp 400 "No application with the given application id exists."
    ∧ ("a1" : String) ≠ ""
    ∧ findOneAndUpdate updHostValid updApps "a1" ⟨none, some "p2", none⟩ =
        .error "Duplicate unique field"
    ∧ putApplication updHostValid updApps "a1" ⟨none, some "p2", none⟩ =
        .errorResp 403 "Duplicate unique field"
    ∧ findOneAndUpdate updHostValid updApps "a1" ⟨some "N", none, none⟩ =
        .ok (some ⟨"a1", "p1", some "http://h1.com", some "N"⟩)
    ∧ putApplication updHostValid updApps "a1" ⟨some "N", none, none⟩ =
        .updated ⟨"a1", "p1", some "http://h1.com", some "N"⟩
    ∧ putApplication updHostValid updApps "a1" ⟨none, none, some "invalid_url"⟩ =
        .errorResp 403 "Validation failed: host is not a valid URL" := by
  refine ⟨by decide, by decide,
    (putApplication_statuses updHostValid updApps "zz" ⟨some "N", none, none⟩
      (by decide)).1 rfl,
    by decide, rfl,
    (putApplication_statuses updHostValid updApps "a1"
      ⟨none, some "p2", none⟩ (by decide)).2.1 "Duplicate unique field" rfl,
    rfl,
    (putApplication_statuses updHostValid updApps "a1"
      ⟨some "N", none, none⟩ (by decide)).2.2.1
      ⟨"a1", "p1", some "http://h1.com", some "N"⟩ rfl,
    (putApplication_statuses updHostValid updApps "a1"
      ⟨none, none, some "invalid_url"⟩ (by decide)).2.2.2
      ⟨"a1", "p1", some "http://h1.com", none⟩ rfl (by decide) (by decide)⟩

end A2
